import Mathlib

/-!
Shallow embedding of the testcase-markdown extraction core (src/src/lib.rs).

The markdown parser (`to_mdast`) is an external collaborator: the embedding
takes the already-parsed list of top-level block nodes.  `unwrap`/`panic!`
in the source are modelled as `Except` errors, following the spec's
reframing of fatal panics as typed failures.  The configuration type is a
type parameter `Options` together with its merge capability
`merge : Options → String → Except String Options` (the `MergeSerialized`
trait method `merge_serialized`).
-/

namespace TestcaseMarkdown

/-- An inline child of a heading node.  The source only distinguishes
`Node::Text` from everything else (`let Node::Text(text) = ... else panic!`),
so all non-text inline kinds collapse to `other`. -/
inductive InlineNode where
  | text (value : String)
  | other
deriving DecidableEq

/-- A heading block node: `depth`, `children`, and its starting source line
(`heading.position.unwrap().start.line`; the parser always supplies a
position, so the line is carried directly). -/
structure Heading where
  depth : Nat
  children : List InlineNode
  line : Nat
deriving DecidableEq

/-- A fenced code block node: optional `meta` tag, raw text `value`, and its
starting source line (`code.position.unwrap().start.line`). -/
structure Code where
  meta : Option String
  value : String
  line : Nat
deriving DecidableEq

/-- A top-level block node.  All node kinds other than headings and code
blocks are ignored by the core (`_ => {}`), so they collapse to `other`. -/
inductive Node where
  | heading (h : Heading)
  | code (c : Code)
  | other
deriving DecidableEq

/-- Fatal extraction failures, modelling the source's panics:
`emptyHeading` is the `unwrap()` on a heading with no children,
`malformedHeading` is `panic!("Markdown headings must contain plain text.")`,
`configurationParseError` is the panic in the `Code`/options branch carrying
the block's line and the merge error message. -/
inductive ExtractError where
  | emptyHeading
  | malformedHeading
  | configurationParseError (line : Nat) (message : String)
deriving DecidableEq

/-- One open heading scope (struct `Section`). -/
structure Section (Options : Type) where
  depth : Nat
  name : String
  line : Nat
  options : Options
deriving DecidableEq

/-- The scan-time context (struct `SectionStack`): sections are ordered
outermost first, the Rust `Vec` push/last corresponding to list append/last. -/
structure SectionStack (Options : Type) where
  root_options : Options
  sections : List (Section Options)
deriving DecidableEq

namespace SectionStack

variable {Options : Type}

/-- `SectionStack::new`. -/
def new (root_options : Options) : SectionStack Options :=
  { root_options, sections := [] }

/-- `SectionStack::get_options`: the innermost (last) open section's options,
or `root_options` when no section is open. -/
def get_options (st : SectionStack Options) : Options :=
  match st.sections.getLast? with
  | some s => s.options
  | none => st.root_options

/-- Helper for `last_mut`: replace the options of the last section. -/
def setLastOptions (options : Options) : List (Section Options) → List (Section Options)
  | [] => []
  | [s] => [{ s with options }]
  | s :: s₂ :: rest => s :: setLastOptions options (s₂ :: rest)

/-- `SectionStack::set_options`: write the innermost open section's options
when one exists (`last_mut`), otherwise `root_options`. -/
def set_options (st : SectionStack Options) (options : Options) : SectionStack Options :=
  match st.sections with
  | [] => { st with root_options := options }
  | _ :: _ => { st with sections := setLastOptions options st.sections }

/-- `SectionStack::push_heading`: extract the first child
(`children.into_iter().nth(0).unwrap()`), require it to be plain text,
truncate (`retain(|s| s.depth < depth)`), then push a new section whose
options are a snapshot of the current options after truncation. -/
def push_heading (st : SectionStack Options) (heading : Heading) :
    Except ExtractError (SectionStack Options) :=
  match heading.children.head? with
  | none => .error .emptyHeading
  | some .other => .error .malformedHeading
  | some (.text value) =>
      let depth := heading.depth
      let truncated : SectionStack Options :=
        { st with sections := st.sections.filter (fun s => s.depth < depth) }
      let sec : Section Options :=
        { depth, line := heading.line, name := value, options := truncated.get_options }
      .ok { truncated with sections := truncated.sections ++ [sec] }

/-- `SectionStack::get_headings`: open sections' names, outermost first. -/
def get_headings (st : SectionStack Options) : List String :=
  st.sections.map (fun s => s.name)

end SectionStack

/-- One emitted result (struct `TestCase`). -/
structure TestCase (Options : Type) where
  name : String
  headings : List String
  line_number : Nat
  options : Options
  args : List String
deriving DecidableEq

/-- `TestCase::new`: options snapshot via `get_options().clone()`, name is
the popped last heading (or the sentinel), headings is the remainder,
line number is the innermost section's line or 0. -/
def TestCase.new {Options : Type} (args : List String)
    (section_stack : SectionStack Options) : TestCase Options :=
  let options := section_stack.get_options
  let headings := section_stack.get_headings
  let name := headings.getLast?.getD "(Unnamed test)"
  { name
    headings := headings.dropLast
    line_number := ((section_stack.sections.getLast?).map (fun s => s.line)).getD 0
    options
    args }

/-- The `push_test_case` closure: when the pending buffer is non-empty,
append a new `TestCase` built from the current stack and clear the buffer
(`take(a)`); otherwise do nothing.  Returns (output cases, buffer). -/
def push_test_case {Options : Type} (st : SectionStack Options)
    (args : List String) (cases : List (TestCase Options)) :
    List (TestCase Options) × List String :=
  if args.length > 0 then (cases ++ [TestCase.new args st], []) else (cases, args)

/-- The node loop of `get_test_cases`: headings flush then push, code blocks
tagged exactly `options` merge-and-set (failing fatally with the block's
line and the merge message), any other code block appends its value to the
pending buffer, all other nodes are ignored. -/
def runNodes {Options : Type} (merge : Options → String → Except String Options) :
    List Node → SectionStack Options → List String → List (TestCase Options) →
    Except ExtractError (SectionStack Options × List String × List (TestCase Options))
  | [], st, args, cases => .ok (st, args, cases)
  | .heading h :: rest, st, args, cases =>
      let (cases', args') := push_test_case st args cases
      match st.push_heading h with
      | .error e => .error e
      | .ok st' => runNodes merge rest st' args' cases'
  | .code c :: rest, st, args, cases =>
      if c.meta = some "options" then
        match merge st.get_options c.value with
        | .error error => .error (.configurationParseError c.line error)
        | .ok options => runNodes merge rest (st.set_options options) args cases
      else
        runNodes merge rest st (args ++ [c.value]) cases
  | .other :: rest, st, args, cases => runNodes merge rest st args cases

/-- `get_test_cases` on the parsed node list: run the loop from a fresh
stack with empty buffer and output, then flush one final time. -/
def get_test_cases {Options : Type} (merge : Options → String → Except String Options)
    (nodes : List Node) (root_options : Options) :
    Except ExtractError (List (TestCase Options)) :=
  match runNodes merge nodes (SectionStack.new root_options) [] [] with
  | .error e => .error e
  | .ok (st, args, cases) => .ok (push_test_case st args cases).1

/-- A node is a data/argument block: a fenced code block whose tag is not
exactly `options`. -/
def isDataBlock : Node → Bool
  | .code c => !(c.meta = some "options")
  | _ => false

/-- Raw texts of all data (non-configuration fenced) blocks, in document order. -/
def dataTexts : List Node → List String
  | [] => []
  | .code c :: rest => if c.meta = some "options" then dataTexts rest else c.value :: dataTexts rest
  | .heading _ :: rest => dataTexts rest
  | .other :: rest => dataTexts rest

/-- The open-section stack is strictly increasing in depth from bottom
(outermost) to top (innermost). -/
def depthsIncreasing {Options : Type} (st : SectionStack Options) : Prop :=
  st.sections.Pairwise (fun a b => a.depth < b.depth)

/- Sample fixtures used by witness theorems. -/

def sampleSec1 : Section Nat := ⟨1, "Tests", 1, 0⟩

def sampleSec3 : Section Nat := ⟨3, "Deep", 2, 7⟩

def sampleStack : SectionStack Nat := ⟨0, [sampleSec1, sampleSec3]⟩

def sampleHeading : Heading := ⟨2, [.text "Fruits"], 5⟩

/-- A concrete merge capability for witnesses: always succeeds, adding the
source's length to the current value. -/
def mergeInc : Nat → String → Except String Nat := fun o s => .ok (o + s.length)

/-- A concrete merge capability for witnesses: always rejects its input. -/
def mergeFail : Nat → String → Except String Nat := fun _ s => .error s

def sampleNodes : List Node :=
  [.heading ⟨1, [.text "T"], 1⟩, .code ⟨none, "x", 2⟩,
   .code ⟨some "options", "oo", 3⟩, .heading ⟨2, [.text "U"], 4⟩,
   .code ⟨some "rust", "y", 5⟩, .other]

/-- The output of `get_test_cases mergeInc sampleNodes 0`. -/
def sampleCases : List (TestCase Nat) :=
  [⟨"T", [], 1, 2, ["x"]⟩, ⟨"U", ["T"], 4, 2, ["y"]⟩]

section Lemmas

variable {Options : Type}

theorem setLastOptions_cons_shape (o : Options) (s₂ : Section Options)
    (rest : List (Section Options)) :
    ∃ t ts, SectionStack.setLastOptions o (s₂ :: rest) = t :: ts := by
  cases rest <;> exact ⟨_, _, rfl⟩

theorem setLastOptions_dropLast (o : Options) :
    ∀ l : List (Section Options), (SectionStack.setLastOptions o l).dropLast = l.dropLast
  | [] => rfl
  | [_] => rfl
  | s :: s₂ :: rest => by
      have ih := setLastOptions_dropLast o (s₂ :: rest)
      obtain ⟨t, ts, hts⟩ := setLastOptions_cons_shape o s₂ rest
      show (s :: SectionStack.setLastOptions o (s₂ :: rest)).dropLast = _
      rw [hts] at ih ⊢
      rw [List.dropLast_cons₂, List.dropLast_cons₂, ih]

theorem setLastOptions_getLast? (o : Options) :
    ∀ l : List (Section Options),
      (SectionStack.setLastOptions o l).getLast? = l.getLast?.map (fun s => { s with options := o })
  | [] => rfl
  | [_] => rfl
  | s :: s₂ :: rest => by
      have ih := setLastOptions_getLast? o (s₂ :: rest)
      obtain ⟨t, ts, hts⟩ := setLastOptions_cons_shape o s₂ rest
      show (s :: SectionStack.setLastOptions o (s₂ :: rest)).getLast? = _
      rw [hts] at ih ⊢
      rw [List.getLast?_cons_cons, List.getLast?_cons_cons, ih]

theorem setLastOptions_map_strip (o : Options) :
    ∀ l : List (Section Options),
      (SectionStack.setLastOptions o l).map (fun s => (s.depth, s.name, s.line)) =
        l.map (fun s => (s.depth, s.name, s.line))
  | [] => rfl
  | [_] => rfl
  | s :: s₂ :: rest => by
      have ih := setLastOptions_map_strip o (s₂ :: rest)
      simp only [SectionStack.setLastOptions, List.map_cons] at ih ⊢
      rw [ih]

theorem set_options_get_options (st : SectionStack Options) (o : Options) :
    (st.set_options o).get_options = o := by
  cases h : st.sections with
  | nil => simp [SectionStack.set_options, SectionStack.get_options, h]
  | cons s rest =>
      simp only [SectionStack.set_options, SectionStack.get_options, h]
      rw [setLastOptions_getLast?]
      cases (s :: rest).getLast?.eq_none_or_eq_some with
      | inl hnone => simp [List.getLast?_eq_none_iff] at hnone
      | inr hsome => obtain ⟨sec, hsec⟩ := hsome; simp [hsec]

theorem set_options_sections_dropLast (st : SectionStack Options) (o : Options) :
    (st.set_options o).sections.dropLast = st.sections.dropLast := by
  cases h : st.sections with
  | nil => simp [SectionStack.set_options, h]
  | cons s rest => simp only [SectionStack.set_options, h]; exact setLastOptions_dropLast o _

theorem set_options_root_of_ne_nil (st : SectionStack Options) (o : Options)
    (h : st.sections ≠ []) : (st.set_options o).root_options = st.root_options := by
  cases hs : st.sections with
  | nil => exact absurd hs h
  | cons s rest => simp [SectionStack.set_options, hs]

theorem set_options_sections_ne_nil (st : SectionStack Options) (o : Options)
    (h : st.sections ≠ []) : (st.set_options o).sections ≠ [] := by
  cases hs : st.sections with
  | nil => exact absurd hs h
  | cons s rest =>
      simp only [SectionStack.set_options, hs]
      cases rest <;> simp [SectionStack.setLastOptions]

/-- Inversion of a successful `push_heading`: the first child is plain text
and the result is the truncated stack with the new snapshot section appended. -/
theorem push_heading_ok_iff (st st' : SectionStack Options) (h : Heading) :
    st.push_heading h = .ok st' ↔
      ∃ v, h.children.head? = some (.text v) ∧
        st' = { st with
          sections := st.sections.filter (fun s => s.depth < h.depth) ++
            [{ depth := h.depth, line := h.line, name := v,
               options := (SectionStack.mk st.root_options
                 (st.sections.filter (fun s => s.depth < h.depth))).get_options }] } := by
  constructor
  · intro hok
    cases hc : h.children.head? with
    | none => simp [SectionStack.push_heading, hc] at hok
    | some child =>
        cases child with
        | other => simp [SectionStack.push_heading, hc] at hok
        | text v =>
            refine ⟨v, rfl, ?_⟩
            simp only [SectionStack.push_heading, hc] at hok
            cases hok
            rfl
  · rintro ⟨v, hv, rfl⟩
    simp [SectionStack.push_heading, hv]

theorem new_args (args : List String) (st : SectionStack Options) :
    (TestCase.new args st).args = args := rfl

theorem push_test_case_pos (st : SectionStack Options) (args : List String)
    (cases : List (TestCase Options)) (h : args.length > 0) :
    push_test_case st args cases = (cases ++ [TestCase.new args st], []) := by
  simp [push_test_case, h]

theorem push_test_case_zero (st : SectionStack Options) (args : List String)
    (cases : List (TestCase Options)) (h : ¬args.length > 0) :
    push_test_case st args cases = (cases, args) := by
  simp [push_test_case, h]

theorem runNodes_cons_heading (merge : Options → String → Except String Options)
    (h : Heading) (rest : List Node) (st : SectionStack Options) (args : List String)
    (cases : List (TestCase Options)) :
    runNodes merge (.heading h :: rest) st args cases =
      match st.push_heading h with
      | .error e => .error e
      | .ok st₂ =>
          runNodes merge rest st₂ (push_test_case st args cases).2
            (push_test_case st args cases).1 := rfl

theorem runNodes_cons_code (merge : Options → String → Except String Options)
    (c : Code) (rest : List Node) (st : SectionStack Options) (args : List String)
    (cases : List (TestCase Options)) :
    runNodes merge (.code c :: rest) st args cases =
      if c.meta = some "options" then
        match merge st.get_options c.value with
        | .error e => .error (.configurationParseError c.line e)
        | .ok o => runNodes merge rest (st.set_options o) args cases
      else runNodes merge rest st (args ++ [c.value]) cases := rfl

theorem runNodes_cons_other (merge : Options → String → Except String Options)
    (rest : List Node) (st : SectionStack Options) (args : List String)
    (cases : List (TestCase Options)) :
    runNodes merge (.other :: rest) st args cases = runNodes merge rest st args cases := rfl

theorem runNodes_append (merge : Options → String → Except String Options) :
    ∀ (l₁ l₂ : List Node) (st : SectionStack Options) (args : List String)
      (cases : List (TestCase Options)),
      runNodes merge (l₁ ++ l₂) st args cases =
        match runNodes merge l₁ st args cases with
        | .error e => .error e
        | .ok (st', args', cases') => runNodes merge l₂ st' args' cases'
  | [], l₂, st, args, cases => rfl
  | .heading h :: l₁, l₂, st, args, cases => by
      rw [List.cons_append, runNodes_cons_heading, runNodes_cons_heading]
      cases st.push_heading h with
      | error e => rfl
      | ok st₂ => exact runNodes_append merge l₁ l₂ st₂ _ _
  | .code c :: l₁, l₂, st, args, cases => by
      rw [List.cons_append, runNodes_cons_code, runNodes_cons_code]
      by_cases hc : c.meta = some "options"
      · rw [if_pos hc, if_pos hc]
        cases merge st.get_options c.value with
        | error e => rfl
        | ok o => exact runNodes_append merge l₁ l₂ _ _ _
      · rw [if_neg hc, if_neg hc]
        exact runNodes_append merge l₁ l₂ _ _ _
  | .other :: l₁, l₂, st, args, cases => by
      rw [List.cons_append, runNodes_cons_other, runNodes_cons_other]
      exact runNodes_append merge l₁ l₂ _ _ _

theorem runNodes_no_data (merge : Options → String → Except String Options) :
    ∀ (nodes : List Node) (st st' : SectionStack Options)
      (cases cases' : List (TestCase Options)) (args' : List String),
      (∀ n ∈ nodes, isDataBlock n = false) →
      runNodes merge nodes st [] cases = .ok (st', args', cases') →
      args' = [] ∧ cases' = cases
  | [], st, st', cases, cases', args', _, hok => by
      have hok' : (Except.ok (st, ([] : List String), cases) :
          Except ExtractError (SectionStack Options × List String × List (TestCase Options))) =
          .ok (st', args', cases') := hok
      simp only [Except.ok.injEq, Prod.mk.injEq] at hok'
      exact ⟨hok'.2.1.symm, hok'.2.2.symm⟩
  | .heading h :: rest, st, st', cases, cases', args', hnd, hok => by
      rw [runNodes_cons_heading] at hok
      cases hph : st.push_heading h with
      | error e => rw [hph] at hok; exact absurd hok (by simp)
      | ok st₂ =>
          rw [hph] at hok
          exact runNodes_no_data merge rest st₂ st' cases cases' args'
            (fun n hn => hnd n (List.mem_cons_of_mem _ hn)) hok
  | .code c :: rest, st, st', cases, cases', args', hnd, hok => by
      have hc : c.meta = some "options" := by
        have h := hnd (.code c) (List.mem_cons_self _ _)
        simpa [isDataBlock] using h
      rw [runNodes_cons_code, if_pos hc] at hok
      cases hm : merge st.get_options c.value with
      | error e => rw [hm] at hok; exact absurd hok (by simp)
      | ok o =>
          rw [hm] at hok
          exact runNodes_no_data merge rest (st.set_options o) st' cases cases' args'
            (fun n hn => hnd n (List.mem_cons_of_mem _ hn)) hok
  | .other :: rest, st, st', cases, cases', args', hnd, hok => by
      rw [runNodes_cons_other] at hok
      exact runNodes_no_data merge rest st st' cases cases' args'
        (fun n hn => hnd n (List.mem_cons_of_mem _ hn)) hok

theorem runNodes_args_flatten (merge : Options → String → Except String Options) :
    ∀ (nodes : List Node) (st st' : SectionStack Options) (args args' : List String)
      (cases cases' : List (TestCase Options)),
      runNodes merge nodes st args cases = .ok (st', args', cases') →
      (cases'.map (fun tc => tc.args)).flatten ++ args' =
        (cases.map (fun tc => tc.args)).flatten ++ args ++ dataTexts nodes
  | [], st, st', args, args', cases, cases', hok => by
      have hok' : (Except.ok (st, args, cases) :
          Except ExtractError (SectionStack Options × List String × List (TestCase Options))) =
          .ok (st', args', cases') := hok
      simp only [Except.ok.injEq, Prod.mk.injEq] at hok'
      obtain ⟨-, h2, h3⟩ := hok'
      subst h2; subst h3
      simp [dataTexts]
  | .heading h :: rest, st, st', args, args', cases, cases', hok => by
      rw [runNodes_cons_heading] at hok
      cases hph : st.push_heading h with
      | error e => rw [hph] at hok; exact absurd hok (by simp)
      | ok st₂ =>
          rw [hph] at hok
          have ih := runNodes_args_flatten merge rest st₂ st'
            (push_test_case st args cases).2 args' (push_test_case st args cases).1 cases' hok
          rw [ih]
          simp only [dataTexts]
          by_cases hargs : args.length > 0
          · rw [push_test_case_pos st args cases hargs]
            simp [new_args]
          · rw [push_test_case_zero st args cases hargs]
  | .code c :: rest, st, st', args, args', cases, cases', hok => by
      rw [runNodes_cons_code] at hok
      by_cases hc : c.meta = some "options"
      · rw [if_pos hc] at hok
        cases hm : merge st.get_options c.value with
        | error e => rw [hm] at hok; exact absurd hok (by simp)
        | ok o =>
            rw [hm] at hok
            have ih := runNodes_args_flatten merge rest (st.set_options o) st'
              args args' cases cases' hok
            rw [ih]
            simp [dataTexts, hc]
      · rw [if_neg hc] at hok
        have ih := runNodes_args_flatten merge rest st st'
          (args ++ [c.value]) args' cases cases' hok
        rw [ih]
        simp [dataTexts, hc]
  | .other :: rest, st, st', args, args', cases, cases', hok => by
      rw [runNodes_cons_other] at hok
      have ih := runNodes_args_flatten merge rest st st' args args' cases cases' hok
      rw [ih]
      simp [dataTexts]

theorem push_heading_root_and_nonempty (st st' : SectionStack Options) (h : Heading)
    (hok : st.push_heading h = .ok st') :
    st'.sections ≠ [] ∧ st'.root_options = st.root_options := by
  obtain ⟨v, hv, rfl⟩ := (push_heading_ok_iff st st' h).mp hok
  exact ⟨by simp, rfl⟩

theorem runNodes_preserves_nonempty_root (merge : Options → String → Except String Options) :
    ∀ (nodes : List Node) (st st' : SectionStack Options) (args args' : List String)
      (cases cases' : List (TestCase Options)),
      runNodes merge nodes st args cases = .ok (st', args', cases') →
      st.sections ≠ [] →
      st'.sections ≠ [] ∧ st'.root_options = st.root_options
  | [], st, st', args, args', cases, cases', hok, hne => by
      have hok' : (Except.ok (st, args, cases) :
          Except ExtractError (SectionStack Options × List String × List (TestCase Options))) =
          .ok (st', args', cases') := hok
      simp only [Except.ok.injEq, Prod.mk.injEq] at hok'
      obtain ⟨h1, -, -⟩ := hok'
      subst h1
      exact ⟨hne, rfl⟩
  | .heading h :: rest, st, st', args, args', cases, cases', hok, hne => by
      rw [runNodes_cons_heading] at hok
      cases hph : st.push_heading h with
      | error e => rw [hph] at hok; exact absurd hok (by simp)
      | ok st₂ =>
          rw [hph] at hok
          have hp := push_heading_root_and_nonempty st st₂ h hph
          have ih := runNodes_preserves_nonempty_root merge rest st₂ st' _ args' _ cases' hok hp.1
          exact ⟨ih.1, ih.2.trans hp.2⟩
  | .code c :: rest, st, st', args, args', cases, cases', hok, hne => by
      rw [runNodes_cons_code] at hok
      by_cases hc : c.meta = some "options"
      · rw [if_pos hc] at hok
        cases hm : merge st.get_options c.value with
        | error e => rw [hm] at hok; exact absurd hok (by simp)
        | ok o =>
            rw [hm] at hok
            have ih := runNodes_preserves_nonempty_root merge rest (st.set_options o) st'
              args args' cases cases' hok (set_options_sections_ne_nil st o hne)
            exact ⟨ih.1, ih.2.trans (set_options_root_of_ne_nil st o hne)⟩
      · rw [if_neg hc] at hok
        exact runNodes_preserves_nonempty_root merge rest st st'
          (args ++ [c.value]) args' cases cases' hok hne
  | .other :: rest, st, st', args, args', cases, cases', hok, hne => by
      rw [runNodes_cons_other] at hok
      exact runNodes_preserves_nonempty_root merge rest st st' args args' cases cases' hok hne

end Lemmas

section Claims

variable {Options : Type}

/-- C1: `push_heading` with depth `d` first removes every open section whose
depth is ≥ `d` (keeping exactly those of depth < `d`) and then pushes the new
section of depth `d` on top, so the open-section stack stays strictly
increasing in depth from bottom (outermost) to top (innermost). -/
theorem push_heading_truncates_and_preserves_increasing
    (st st' : SectionStack Options) (h : Heading)
    (hok : st.push_heading h = .ok st')
    (hinc : depthsIncreasing st) :
    (∃ sec : Section Options, sec.depth = h.depth ∧
       st'.sections = st.sections.filter (fun s => s.depth < h.depth) ++ [sec]) ∧
    depthsIncreasing st' := by
  obtain ⟨v, hv, rfl⟩ := (push_heading_ok_iff st st' h).mp hok
  refine ⟨⟨_, rfl, rfl⟩, ?_⟩
  unfold depthsIncreasing at hinc ⊢
  rw [List.pairwise_append]
  refine ⟨hinc.sublist (List.filter_sublist _), List.pairwise_singleton _ _, ?_⟩
  intro a ha b hb
  have hb' := List.mem_singleton.mp hb
  subst hb'
  have ha' := List.of_mem_filter ha
  simpa using ha'

/-- Witness for C1 at a concrete stack `[depth 1, depth 3]` and a heading of
depth 2: the depth-3 section is removed, the new section pushed, and the
resulting stack is strictly increasing. -/
theorem push_heading_truncates_witness :
    (∃ sec : Section Nat, sec.depth = sampleHeading.depth ∧
       (SectionStack.mk 0 [⟨1, "Tests", 1, 0⟩, ⟨2, "Fruits", 5, 0⟩] : SectionStack Nat).sections =
         sampleStack.sections.filter (fun s => s.depth < sampleHeading.depth) ++ [sec]) ∧
    depthsIncreasing (SectionStack.mk 0 [⟨1, "Tests", 1, 0⟩, ⟨2, "Fruits", 5, 0⟩]) :=
  push_heading_truncates_and_preserves_increasing sampleStack _ sampleHeading rfl
    (by unfold depthsIncreasing sampleStack sampleSec1 sampleSec3; decide)

/-- C2: `get_options` returns the innermost open section's options (or
`root_options` when no section is open); `set_options` overwrites the
innermost open section's options when one exists, otherwise `root_options`,
leaving every other piece of state (outer sections, depths/names/lines,
root when a section is open) unchanged. -/
theorem get_set_options_spec (st : SectionStack Options) (o : Options) :
    (st.sections = [] → st.get_options = st.root_options) ∧
    (∀ sec, st.sections.getLast? = some sec → st.get_options = sec.options) ∧
    (st.set_options o).get_options = o ∧
    (st.sections = [] → (st.set_options o).root_options = o) ∧
    (st.sections ≠ [] → (st.set_options o).root_options = st.root_options) ∧
    (st.set_options o).sections.dropLast = st.sections.dropLast ∧
    (st.set_options o).sections.map (fun s => (s.depth, s.name, s.line)) =
      st.sections.map (fun s => (s.depth, s.name, s.line)) := by
  refine ⟨?_, ?_, set_options_get_options st o, ?_, set_options_root_of_ne_nil st o,
    set_options_sections_dropLast st o, ?_⟩
  · intro h; simp [SectionStack.get_options, h]
  · intro sec hsec; simp [SectionStack.get_options, hsec]
  · intro h; simp [SectionStack.set_options, h]
  · cases hs : st.sections with
    | nil => simp [SectionStack.set_options, hs]
    | cons s rest => simp only [SectionStack.set_options, hs]; exact setLastOptions_map_strip o _

/-- Witness for C2 at a concrete two-section stack. -/
theorem get_set_options_witness :
    sampleStack.get_options = sampleSec3.options ∧
    (sampleStack.set_options 9).get_options = 9 ∧
    (sampleStack.set_options 9).root_options = sampleStack.root_options ∧
    (sampleStack.set_options 9).sections.dropLast = sampleStack.sections.dropLast := by
  have h := get_set_options_spec sampleStack 9
  exact ⟨h.2.1 sampleSec3 rfl, h.2.2.1, h.2.2.2.2.1 (by decide), h.2.2.2.2.2.1⟩

/-- C3: a section's options are a snapshot taken at push time: `set_options`
(which targets the innermost section) leaves every outer section unchanged;
sections surviving a truncating push are kept as-is (their stored options
included); and right after a push the current options equal whatever the
enclosing scope (the truncated stack) held. -/
theorem snapshot_isolation (st st' : SectionStack Options) (o : Options)
    (h : Heading) (hok : st.push_heading h = .ok st') :
    (st.set_options o).sections.dropLast = st.sections.dropLast ∧
    (∀ sec ∈ st.sections, sec.depth < h.depth → sec ∈ st'.sections) ∧
    st'.get_options =
      (SectionStack.mk st.root_options
        (st.sections.filter (fun s => s.depth < h.depth))).get_options ∧
    st'.sections.getLast?.map (fun s => s.options) =
      some ((SectionStack.mk st.root_options
        (st.sections.filter (fun s => s.depth < h.depth))).get_options) := by
  obtain ⟨v, hv, rfl⟩ := (push_heading_ok_iff st st' h).mp hok
  refine ⟨set_options_sections_dropLast st o, ?_, ?_, ?_⟩
  · intro sec hmem hdepth
    exact List.mem_append_left _ (List.mem_filter.mpr ⟨hmem, by simpa using hdepth⟩)
  · show SectionStack.get_options _ = _
    unfold SectionStack.get_options
    rw [List.getLast?_concat]
  · rw [List.getLast?_concat]
    rfl

/-- Witness for C3 at a concrete stack and heading. -/
theorem snapshot_isolation_witness :
    (sampleStack.set_options 9).sections.dropLast = sampleStack.sections.dropLast ∧
    (∀ sec ∈ sampleStack.sections, sec.depth < sampleHeading.depth →
      sec ∈ (SectionStack.mk 0 [⟨1, "Tests", 1, 0⟩, ⟨2, "Fruits", 5, 0⟩] :
        SectionStack Nat).sections) ∧
    (SectionStack.mk 0 [⟨1, "Tests", 1, 0⟩, ⟨2, "Fruits", 5, 0⟩] :
        SectionStack Nat).get_options =
      (SectionStack.mk sampleStack.root_options
        (sampleStack.sections.filter (fun s => s.depth < sampleHeading.depth))).get_options := by
  have h := snapshot_isolation sampleStack _ 9 sampleHeading rfl
  exact ⟨h.1, h.2.1, h.2.2.1⟩

/-- C5: every emitted `TestCase` is built from the stack state at its flush
point: `args` is the buffer in collection order, `options` is the current
options snapshot, `name`/`line_number` come from the innermost open section
(sentinel "(Unnamed test)" and 0 when none is open), and `headings` is the
open sections' names outermost-first with the innermost excluded. -/
theorem test_case_new_spec (args : List String) (st : SectionStack Options) :
    (TestCase.new args st).args = args ∧
    (TestCase.new args st).options = st.get_options ∧
    (TestCase.new args st).headings = (st.sections.map (fun s => s.name)).dropLast ∧
    (st.sections = [] →
        (TestCase.new args st).name = "(Unnamed test)" ∧
        (TestCase.new args st).headings = [] ∧
        (TestCase.new args st).line_number = 0) ∧
    (∀ sec, st.sections.getLast? = some sec →
        (TestCase.new args st).name = sec.name ∧
        (TestCase.new args st).line_number = sec.line) := by
  refine ⟨rfl, rfl, rfl, ?_, ?_⟩
  · intro hnil
    simp [TestCase.new, SectionStack.get_headings, hnil]
  · intro sec hsec
    constructor
    · show (SectionStack.get_headings st).getLast?.getD _ = _
      unfold SectionStack.get_headings
      rw [List.getLast?_map, hsec]
      rfl
    · show (st.sections.getLast?.map (fun s => s.line)).getD 0 = _
      rw [hsec]
      rfl

/-- Witness for C5 on a concrete two-section stack and on the empty stack. -/
theorem test_case_new_witness :
    (TestCase.new ["a", "b"] sampleStack).args = ["a", "b"] ∧
    (TestCase.new ["a", "b"] sampleStack).options = sampleStack.get_options ∧
    (TestCase.new ["a", "b"] sampleStack).name = sampleSec3.name ∧
    (TestCase.new ["a", "b"] sampleStack).line_number = sampleSec3.line ∧
    (TestCase.new ["x"] (SectionStack.new (0 : Nat))).name = "(Unnamed test)" ∧
    (TestCase.new ["x"] (SectionStack.new (0 : Nat))).line_number = 0 := by
  have h1 := test_case_new_spec ["a", "b"] sampleStack
  have h2 := test_case_new_spec ["x"] (SectionStack.new (0 : Nat))
  have hlast : sampleStack.sections.getLast? = some sampleSec3 := rfl
  exact ⟨h1.1, h1.2.1, (h1.2.2.2.2 sampleSec3 hlast).1, (h1.2.2.2.2 sampleSec3 hlast).2,
    (h2.2.2.2.1 rfl).1, (h2.2.2.2.1 rfl).2.2⟩

/-- C7 counterexample: the heading `⟨depth 1, children [text "a", other], line 3⟩`
does not have exactly one plain-text child, yet `push_heading` succeeds
(the source only inspects the first child, `nth(0)`). -/
theorem push_heading_extra_children_succeeds :
    ((SectionStack.new (0 : Nat)).push_heading ⟨1, [.text "a", .other], 3⟩ =
      .ok ⟨0, [⟨1, "a", 3, 0⟩]⟩) ∧
    [InlineNode.text "a", InlineNode.other].length ≠ 1 :=
  ⟨rfl, by decide⟩

/-- C7 (amended): `push_heading` fails fatally when the heading's first child
is missing or not plain text; whenever the first child is plain text it
succeeds, using that child's value as the new section's name (any further
children are ignored). -/
theorem push_heading_first_child_spec (st : SectionStack Options) (h : Heading) :
    (h.children.head? = none → st.push_heading h = .error .emptyHeading) ∧
    (h.children.head? = some .other → st.push_heading h = .error .malformedHeading) ∧
    (∀ v rest', h.children = InlineNode.text v :: rest' →
       ∃ st', st.push_heading h = .ok st' ∧
         st'.sections.getLast?.map (fun s => s.name) = some v) := by
  refine ⟨?_, ?_, ?_⟩
  · intro hnone; simp [SectionStack.push_heading, hnone]
  · intro hother; simp [SectionStack.push_heading, hother]
  · intro v rest' hchildren
    have hv : h.children.head? = some (.text v) := by rw [hchildren]; rfl
    refine ⟨_, (push_heading_ok_iff st _ h).mpr ⟨v, hv, rfl⟩, ?_⟩
    rw [List.getLast?_concat]
    rfl

/-- Witness for C7 (amended): the three shapes at concrete inputs. -/
theorem push_heading_first_child_witness :
    (SectionStack.new (0 : Nat)).push_heading ⟨1, [], 3⟩ = .error .emptyHeading ∧
    (SectionStack.new (0 : Nat)).push_heading ⟨1, [.other, .text "x"], 3⟩ =
      .error .malformedHeading ∧
    ∃ st', (SectionStack.new (0 : Nat)).push_heading ⟨1, [.text "x"], 3⟩ = .ok st' ∧
      st'.sections.getLast?.map (fun s => s.name) = some "x" := by
  have h1 := push_heading_first_child_spec (SectionStack.new (0 : Nat)) ⟨1, [], 3⟩
  have h2 := push_heading_first_child_spec (SectionStack.new (0 : Nat)) ⟨1, [.other, .text "x"], 3⟩
  have h3 := push_heading_first_child_spec (SectionStack.new (0 : Nat)) ⟨1, [.text "x"], 3⟩
  exact ⟨h1.1 rfl, h2.2.1 rfl, h3.2.2 "x" [] rfl⟩

/-- C4: a flush with an empty pending buffer emits nothing, and over any run
of nodes containing no data blocks (only headings, configuration blocks, or
ignored nodes) starting from an empty buffer, no `TestCase` is emitted and
the buffer stays empty. -/
theorem no_emit_without_data (merge : Options → String → Except String Options)
    (nodes : List Node) (st st' : SectionStack Options)
    (cases cases' : List (TestCase Options)) (args' : List String)
    (hnd : ∀ n ∈ nodes, isDataBlock n = false)
    (hok : runNodes merge nodes st [] cases = .ok (st', args', cases')) :
    push_test_case st [] cases = (cases, []) ∧ args' = [] ∧ cases' = cases := by
  have h := runNodes_no_data merge nodes st st' cases cases' args' hnd hok
  exact ⟨rfl, h.1, h.2⟩

/-- Witness for C4: a heading followed by a configuration block and an
ignored node emits no test case. -/
theorem no_emit_without_data_witness :
    push_test_case (SectionStack.new (0 : Nat)) [] [] =
      (([] : List (TestCase Nat)), ([] : List String)) ∧
    ([] : List String) = [] ∧ ([] : List (TestCase Nat)) = [] :=
  no_emit_without_data mergeInc
    [.heading ⟨1, [.text "T"], 1⟩, .code ⟨some "options", "oo", 3⟩, .other]
    (SectionStack.new 0) ⟨0, [⟨1, "T", 1, 2⟩]⟩ [] [] []
    (by decide) rfl

/-- C6: node classification in the driver — a fenced block whose tag is
exactly "options" is merged onto the current options and stored via
`set_options` (failing fatally on a merge error), a fenced block with any
other tag (or none) has its raw text appended to the pending buffer, and
every other node kind is ignored. -/
theorem node_classification (merge : Options → String → Except String Options)
    (c : Code) (rest : List Node) (st : SectionStack Options) (args : List String)
    (cases : List (TestCase Options)) :
    (c.meta = some "options" →
      runNodes merge (Node.code c :: rest) st args cases =
        match merge st.get_options c.value with
        | .error e => .error (.configurationParseError c.line e)
        | .ok o => runNodes merge rest (st.set_options o) args cases) ∧
    (c.meta ≠ some "options" →
      runNodes merge (Node.code c :: rest) st args cases =
        runNodes merge rest st (args ++ [c.value]) cases) ∧
    runNodes merge (Node.other :: rest) st args cases =
      runNodes merge rest st args cases := by
  refine ⟨?_, ?_, runNodes_cons_other merge rest st args cases⟩
  · intro hc; rw [runNodes_cons_code, if_pos hc]
  · intro hc; rw [runNodes_cons_code, if_neg hc]

/-- Witness for C6 on concrete configuration, data, and ignored nodes. -/
theorem node_classification_witness :
    (runNodes mergeInc [Node.code ⟨some "options", "oo", 3⟩] sampleStack [] [] =
      match mergeInc sampleStack.get_options "oo" with
      | .error e => .error (.configurationParseError 3 e)
      | .ok o => runNodes mergeInc [] (sampleStack.set_options o) [] []) ∧
    (runNodes mergeInc [Node.code ⟨none, "x", 2⟩] sampleStack [] [] =
      runNodes mergeInc [] sampleStack ["x"] []) ∧
    runNodes mergeInc [Node.other] sampleStack [] [] = runNodes mergeInc [] sampleStack [] [] := by
  have h1 := node_classification mergeInc ⟨some "options", "oo", 3⟩ [] sampleStack [] []
  have h2 := node_classification mergeInc ⟨none, "x", 2⟩ [] sampleStack [] []
  exact ⟨h1.1 rfl, h2.2.1 (by simp), h2.2.2⟩

/-- C8: a configuration block whose raw text the merge capability rejects
makes the whole extraction fail with `ConfigurationParseError` carrying that
block's line and the underlying message; no test cases are returned and no
further nodes are processed. -/
theorem config_parse_error_aborts (merge : Options → String → Except String Options)
    (pre rest : List Node) (c : Code) (root : Options) (st' : SectionStack Options)
    (args' : List String) (cases' : List (TestCase Options)) (msg : String)
    (hpre : runNodes merge pre (SectionStack.new root) [] [] = .ok (st', args', cases'))
    (hmeta : c.meta = some "options")
    (hfail : merge st'.get_options c.value = .error msg) :
    get_test_cases merge (pre ++ Node.code c :: rest) root =
      .error (.configurationParseError c.line msg) := by
  have hrun : runNodes merge (pre ++ Node.code c :: rest) (SectionStack.new root) [] [] =
      .error (.configurationParseError c.line msg) := by
    rw [runNodes_append, hpre]
    show runNodes merge (Node.code c :: rest) st' args' cases' = _
    rw [runNodes_cons_code, if_pos hmeta, hfail]
  show (match runNodes merge (pre ++ Node.code c :: rest) (SectionStack.new root) [] [] with
    | .error e => (.error e : Except ExtractError (List (TestCase Options)))
    | .ok (st₂, args₂, cases₂) => .ok (push_test_case st₂ args₂ cases₂).1) = _
  rw [hrun]

/-- Witness for C8: one rejected configuration block aborts the call with
its line and message. -/
theorem config_parse_error_witness :
    get_test_cases mergeFail [Node.code ⟨some "options", "bad", 7⟩] (0 : Nat) =
      .error (.configurationParseError 7 "bad") :=
  config_parse_error_aborts mergeFail [] [] ⟨some "options", "bad", 7⟩ 0
    (SectionStack.new 0) [] [] "bad" rfl rfl rfl

/-- C9: on a successful extraction, the concatenation of the emitted test
cases' argument lists, in output order, is exactly the sequence of raw texts
of all non-configuration fenced blocks in document order. -/
theorem output_args_concat (merge : Options → String → Except String Options)
    (nodes : List Node) (root : Options) (cases : List (TestCase Options))
    (hok : get_test_cases merge nodes root = .ok cases) :
    (cases.map (fun tc => tc.args)).flatten = dataTexts nodes := by
  cases hrun : runNodes merge nodes (SectionStack.new root) [] [] with
  | error e =>
      unfold get_test_cases at hok
      rw [hrun] at hok
      exact absurd hok (by simp)
  | ok res =>
      obtain ⟨st, args, cs⟩ := res
      unfold get_test_cases at hok
      rw [hrun] at hok
      have hok' : (Except.ok (push_test_case st args cs).1 :
          Except ExtractError (List (TestCase Options))) = .ok cases := hok
      have hcases : (push_test_case st args cs).1 = cases := by
        simpa using hok'
      have hinv := runNodes_args_flatten merge nodes (SectionStack.new root) st [] args [] cs hrun
      simp only [List.map_nil, List.flatten_nil, List.nil_append] at hinv
      by_cases hargs : args.length > 0
      · rw [← hcases, push_test_case_pos st args cs hargs]
        simpa [new_args] using hinv
      · have hnil : args = [] := List.length_eq_zero.mp (Nat.eq_zero_of_not_pos hargs)
        rw [← hcases, push_test_case_zero st args cs hargs]
        subst hnil
        simpa using hinv

/-- Witness for C9 on a concrete document with two data blocks, one
configuration block, and one data block tagged with a non-options tag. -/
theorem output_args_concat_witness :
    (sampleCases.map (fun tc => tc.args)).flatten = dataTexts sampleNodes :=
  output_args_concat mergeInc sampleNodes 0 sampleCases rfl

/-- C10: truncate-then-push never leaves the stack empty, so once any heading
has been pushed the open-section stack is non-empty for the rest of the run
and `root_options` is never written again: any successful run from a state
with a non-empty stack ends with a non-empty stack and the same
`root_options`. -/
theorem root_options_frozen_after_first_heading
    (merge : Options → String → Except String Options) :
    (∀ (st st' : SectionStack Options) (h : Heading),
        st.push_heading h = .ok st' →
        st'.sections ≠ [] ∧ st'.root_options = st.root_options) ∧
    (∀ (nodes : List Node) (st st' : SectionStack Options) (args args' : List String)
        (cases cases' : List (TestCase Options)),
        runNodes merge nodes st args cases = .ok (st', args', cases') →
        st.sections ≠ [] →
        st'.sections ≠ [] ∧ st'.root_options = st.root_options) :=
  ⟨fun st st' h hok => push_heading_root_and_nonempty st st' h hok,
   fun nodes st st' args args' cases cases' hok hne =>
     runNodes_preserves_nonempty_root merge nodes st st' args args' cases cases' hok hne⟩

/-- Witness for C10: a push on the empty stack yields a non-empty stack, and
a run over a configuration block plus a data block from a non-empty stack
keeps the stack non-empty and `root_options` unchanged. -/
theorem root_options_frozen_witness :
    ((SectionStack.mk 0 [⟨1, "a", 3, 0⟩] : SectionStack Nat).sections ≠ [] ∧
      (SectionStack.mk 0 [⟨1, "a", 3, 0⟩] : SectionStack Nat).root_options =
        (SectionStack.new (0 : Nat)).root_options) ∧
    ((SectionStack.mk 0 [sampleSec1, ⟨3, "Deep", 2, 9⟩] : SectionStack Nat).sections ≠ [] ∧
      (SectionStack.mk 0 [sampleSec1, ⟨3, "Deep", 2, 9⟩] : SectionStack Nat).root_options =
        sampleStack.root_options) := by
  have h := root_options_frozen_after_first_heading mergeInc
  exact ⟨h.1 (SectionStack.new 0) _ ⟨1, [.text "a"], 3⟩ rfl,
    h.2 [.code ⟨some "options", "oo", 3⟩, .code ⟨none, "x", 5⟩] sampleStack _ [] ["x"] [] []
      rfl (by decide)⟩

end Claims

end TestcaseMarkdown
